import Mathlib

/-!
Verification of the Si5351 measurement logger (`run.py`).

The Python program is shallowly embedded here.  Floating-point numbers are
modelled as exact rationals (`ℚ`); machine wall-clock time is modelled as the
number of microseconds elapsed since the MJD epoch; the VISA instrument is
modelled as an oracle assigning a reply to every query index; the redirected
standard output and the `scope.close()` calls are collected into an event
trace.
-/

namespace Si5351

/-- Errors a run of the program can raise (modelling Python exceptions):
`instrument` is a pyvisa transport failure raised by `scope.query`,
`parseFloat` is the `ValueError` raised by `float(...)` on a malformed reply,
`domain` is the `ValueError` raised by `frequency_to_period_scientific`,
`zeroDivision` is Python's `ZeroDivisionError`. -/
inductive PyError where
  | instrument
  | parseFloat
  | domain
  | zeroDivision
deriving DecidableEq, Repr

/-- The instrument's behaviour on one `:MEASure:FREQuency?` query:
a reply that parses as the float `v`, a reply `float()` rejects, or a
transport failure. -/
inductive Reply where
  | good (v : ℚ)
  | malformed
  | transportFail
deriving DecidableEq, Repr

/-- `float(scope.query(":MEASure:FREQuency?"))` for the `k`-th query issued. -/
def queryFloat (scope : ℕ → Reply) (k : ℕ) : Except PyError ℚ :=
  match scope k with
  | .good v => .ok v
  | .malformed => .error .parseFloat
  | .transportFail => .error .instrument

/-- The generator-sum in `measure_frequency`:
`sum(float(scope.query(query_command)) for _ in range(n))`, reading queries
`k, k+1, …` left to right and stopping at the first failure.  Returns the
outcome together with the number of queries actually issued. -/
def sumSamples (scope : ℕ → Reply) : ℕ → ℕ → Except PyError ℚ × ℕ
  | _, 0 => (.ok 0, 0)
  | k, n + 1 =>
    match queryFloat scope k with
    | .error e => (.error e, 1)
    | .ok v =>
      match sumSamples scope (k + 1) n with
      | (.error e, c) => (.error e, c + 1)
      | (.ok t, c) => (.ok (v + t), c + 1)

/-- `measure_frequency(scope, n)` (run.py lines 43–46), with `k` the index of
the first query it issues: sums `n` parsed replies and divides by `n`.
Python's `total / n` raises `ZeroDivisionError` when `n = 0`. -/
def measure_frequency (scope : ℕ → Reply) (k n : ℕ) : Except PyError ℚ × ℕ :=
  match sumSamples scope k n with
  | (.error e, c) => (.error e, c)
  | (.ok total, c) => if n = 0 then (.error .zeroDivision, c) else (.ok (total / n), c)

/-! ### Decimal rendering (Python `format`) -/

/-- Round half to even, the rounding used by Python's float formatting. -/
def rhe (q : ℚ) : ℤ :=
  if q - ⌊q⌋ < 1 / 2 then ⌊q⌋
  else if 1 / 2 < q - ⌊q⌋ then ⌊q⌋ + 1
  else if ⌊q⌋ % 2 = 0 then ⌊q⌋ else ⌊q⌋ + 1

/-- The ASCII character for a decimal digit (codes 48–57). -/
def digitChar (d : ℕ) : Char :=
  if d < 10 then Char.ofNat (48 + d) else '*'

/-- Inverse of `digitChar`, used by the model of standard float parsing. -/
def charDigit (c : Char) : Option ℕ :=
  if 48 ≤ c.toNat ∧ c.toNat ≤ 57 then some (c.toNat - 48) else none

/-- Decimal digits of `n`, most significant first. -/
def natChars (n : ℕ) : List Char :=
  if n = 0 then ['0'] else ((Nat.digits 10 n).reverse.map digitChar)

/-- Decimal rendering of a natural number (Python `f"{n}"`). -/
def natStr (n : ℕ) : String :=
  ⟨natChars n⟩

/-- Left-pad a digit list with zeros to width `w`. -/
def padLeftZeros (w : ℕ) (cs : List Char) : List Char :=
  List.replicate (w - cs.length) '0' ++ cs

/-- Python's rendering of the exponent field of `%E`: a mandatory sign
followed by at least two digits. -/
def expChars (e : ℤ) : List Char :=
  (if 0 ≤ e then '+' else '-') :: padLeftZeros 2 (natChars e.natAbs)

/-- Assemble a scientific-notation literal from a mantissa integer `n`
(whose decimal digits are the mantissa digits, the first being the integer
part) and a decimal exponent `e`. -/
def sciChars (n : ℕ) (e : ℤ) : List Char :=
  match natChars n with
  | [] => []
  | d :: rest => d :: '.' :: (rest ++ 'E' :: expChars e)

/-- Mantissa and exponent chosen by `%.<prec>E` for a positive value `q`:
the decimal exponent `e` with `10^e ≤ q < 10^(e+1)`, and the mantissa scaled
to `prec` fractional digits, rounded half to even; when rounding carries all
the way up, the exponent is bumped. -/
def sciParts (prec : ℕ) (q : ℚ) : ℕ × ℤ :=
  let e := Int.log 10 q
  let n := rhe (q * (10 : ℚ) ^ ((prec : ℤ) - e))
  if n = 10 ^ (prec + 1) then (10 ^ prec, e + 1) else (n.toNat, e)

/-- `f"{q:.<prec>E}"` for a positive `q`. -/
def fmtSciPos (prec : ℕ) (q : ℚ) : String :=
  ⟨sciChars (sciParts prec q).1 (sciParts prec q).2⟩

/-- Python scientific formatting `f"{q:.<prec>E}"` on the exact value `q`. -/
def fmtSciE (prec : ℕ) (q : ℚ) : String :=
  if q < 0 then "-" ++ fmtSciPos prec (-q)
  else if q = 0 then ⟨'0' :: '.' :: (List.replicate prec '0' ++ 'E' :: expChars 0)⟩
  else fmtSciPos prec q

/-- `f"{q:.<prec>f}"` for a nonnegative `q`: scale, round half to even, and
print integer and (zero-padded) fractional parts. -/
def fmtFixedNN (prec : ℕ) (q : ℚ) : String :=
  ⟨natChars ((rhe (q * 10 ^ prec)).toNat / 10 ^ prec) ++
    '.' :: padLeftZeros prec (natChars ((rhe (q * 10 ^ prec)).toNat % 10 ^ prec))⟩

/-- Python fixed-point formatting `f"{q:.<prec>f}"` on the exact value `q`. -/
def fmtFixed (prec : ℕ) (q : ℚ) : String :=
  if q < 0 then "-" ++ fmtFixedNN prec (-q) else fmtFixedNN prec q

/-- `frequency_to_period_scientific(frequency)` (run.py lines 55–65):
raises `ValueError` for a non-positive frequency, otherwise renders
`period = 1 / frequency` as `f"{period:.20E}"`. -/
def frequency_to_period_scientific (frequency : ℚ) : Except PyError String :=
  if frequency ≤ 0 then .error .domain
  else .ok (fmtSciE 20 (1 / frequency))

/-! ### Modified Julian Date (run.py lines 8–17) -/

/-- Microseconds in one day. -/
def usPerDay : ℕ := 86400000000

/-- `get_modified_julian_date()` with the wall clock read modelled as `t`
microseconds after the MJD epoch 1858-11-17T00:00:00 UTC.  Python's
`timedelta` normalises the difference into whole days, seconds in
`[0, 86400)` and microseconds in `[0, 10^6)`; the function combines them as
`delta.days + delta.seconds / 86400.0 + delta.microseconds / 86400.0 / 1e6`. -/
def get_modified_julian_date (t : ℕ) : ℚ :=
  (t / usPerDay : ℕ) + (t % usPerDay / 1000000 : ℕ) / 86400 +
    (t % usPerDay % 1000000 : ℕ) / 86400 / 1000000

/-- Leap-year rule of the proleptic Gregorian calendar, as in Python's
`datetime`. -/
def isLeapYear (y : ℕ) : Bool :=
  (y % 4 == 0 && y % 100 != 0) || (y % 400 == 0)

/-- Days in the months preceding month `m` of year `y` (Python
`datetime._days_before_month`). -/
def daysBeforeMonth (y m : ℕ) : ℕ :=
  [0, 0, 31, 59, 90, 120, 151, 181, 212, 243, 273, 304, 334].getD m 0 +
    (if 2 < m && isLeapYear y then 1 else 0)

/-- Python `datetime.toordinal`: day number of `y-m-d` in the proleptic
Gregorian calendar, day 1 being 0001-01-01. -/
def toordinal (y m d : ℕ) : ℕ :=
  (y - 1) * 365 + (y - 1) / 4 - (y - 1) / 100 + (y - 1) / 400 +
    daysBeforeMonth y m + d

/-- Microseconds from the MJD epoch to the UTC instant `y-m-d hh:mm:ss.us`,
the subtraction performed as `datetime` subtraction does (ordinal days plus
time of day). -/
def microsSinceEpoch (y m d hh mm ss us : ℕ) : ℕ :=
  (toordinal y m d - toordinal 1858 11 17) * usPerDay +
    ((hh * 3600 + mm * 60 + ss) * 1000000 + us)

/-! ### The main loop (run.py lines 79–122) -/

/-- Which of the two `dso_close(scope)` call sites ran: the SIGINT handler
(line 73) or the end-of-loop call (line 122). -/
inductive Site where
  | handler
  | loopEnd
deriving DecidableEq, Repr

/-- Terminal state of a run. -/
inductive Terminal where
  | completed
  | interrupted
  | failed
deriving DecidableEq, Repr

/-- Observable events of a run: one `print` to the redirected stdout, one
instrument query, or one `scope.close()`. -/
inductive Event where
  | outLine (s : String)
  | query (k : ℕ)
  | released (s : Site)
deriving DecidableEq, Repr

/-- Result of a run: the event trace, the terminal state, and the process
exit code. -/
structure Outcome where
  trace : List Event
  terminal : Terminal
  exitCode : ℕ
deriving DecidableEq, Repr

/-- A run's environment: the instrument oracle, `N` samples per measurement,
`M` measurements, the `time.time()` readings taken at the start and end of
each cycle, the wall-clock reading (microseconds since the MJD epoch) of each
cycle's `get_modified_julian_date` call, and the point at which SIGINT is
delivered (`some (c, q)`: during cycle `c`, after `q` of its queries), if
ever. -/
structure Config where
  scope : ℕ → Reply
  N : ℕ
  M : ℕ
  startT : ℕ → ℚ
  endT : ℕ → ℚ
  wall : ℕ → ℕ
  intr : Option (ℕ × ℕ)

/-- Whether SIGINT is delivered during cycle `i`, and after how many of that
cycle's queries. -/
def interruptsAt (cfg : Config) (i : ℕ) : Option ℕ :=
  match cfg.intr with
  | some (c, q) => if c = i then some q else none
  | none => none

/-- Message printed by `handle_sigint` (line 72). -/
def ctrlcMsg : String := "\nCtrl-C detected. Closing the oscilloscope and exiting..."

/-- Message printed by `dso_close` (line 52). -/
def closingMsg : String := "Closing the oscilloscope connection..."

/-- The query events for `c` queries starting at global index `k`. -/
def queryEvents (k c : ℕ) : List Event :=
  (List.range c).map (fun j => .query (k + j))

/-- Events of the SIGINT handler: its diagnostic print, `dso_close`'s print,
and the release. -/
def interruptTail : List Event :=
  [.outLine ctrlcMsg, .outLine closingMsg, .released .handler]

/-- The `print(f"Number of samples: {N}")` guarded by `first_time`. -/
def headerLines (first : Bool) (n : ℕ) : List Event :=
  if first then [.outLine ("Number of samples: " ++ natStr n)] else []

/-- The two human-readable summary prints guarded by `first_time`
(lines 115–116). -/
def summaryLines (first : Bool) (mjd avg elapsed : ℚ) (period : String) :
    List Event :=
  if first then
    [.outLine ("[MJD: " ++ fmtFixed 5 mjd ++ "] Averaged frequency: " ++
        fmtFixed 6 (avg / 1000000) ++ " MHz, period: " ++ period),
      .outLine ("Elapsed time: " ++ fmtFixed 2 elapsed ++ " ms\n")]
  else []

/-- The structured log line of line 118:
`f"measurements counter={period},gate={elapsed_time_ms:.2f} {mjd:.5f}"`. -/
def recordLine (period : String) (elapsed mjd : ℚ) : String :=
  "measurements counter=" ++ period ++ ",gate=" ++ fmtFixed 2 elapsed ++
    " " ++ fmtFixed 5 mjd

/-- The `for _ in range(M)` loop (lines 94–122), `rem` cycles remaining,
`i` the current cycle index, `k` the next global query index, `first` the
`first_time` flag.  An uncaught exception propagates past line 122, so the
failed path performs no release; the SIGINT handler releases and exits 0;
normal exhaustion reaches the `dso_close` of line 122. -/
def runLoop (cfg : Config) : ℕ → ℕ → ℕ → Bool → Outcome
  | 0, _, _, _ =>
    ⟨[.outLine closingMsg, .released .loopEnd], .completed, 0⟩
  | rem + 1, i, k, first =>
    match interruptsAt cfg i with
    | some q =>
      ⟨headerLines first cfg.N ++
          queryEvents k (min q (measure_frequency cfg.scope k cfg.N).2) ++ interruptTail,
        .interrupted, 0⟩
    | none =>
      match (measure_frequency cfg.scope k cfg.N).1 with
      | .error _ =>
        ⟨headerLines first cfg.N ++ queryEvents k (measure_frequency cfg.scope k cfg.N).2,
          .failed, 1⟩
      | .ok avg =>
        match frequency_to_period_scientific avg with
        | .error _ =>
          ⟨headerLines first cfg.N ++ queryEvents k (measure_frequency cfg.scope k cfg.N).2,
            .failed, 1⟩
        | .ok period =>
          ⟨(headerLines first cfg.N ++
                queryEvents k (measure_frequency cfg.scope k cfg.N).2 ++
                summaryLines first (get_modified_julian_date (cfg.wall i)) avg
                  ((cfg.endT i - cfg.startT i) * 1000) period ++
                [.outLine (recordLine period ((cfg.endT i - cfg.startT i) * 1000)
                  (get_modified_julian_date (cfg.wall i)))]) ++
              (runLoop cfg rem (i + 1) (k + (measure_frequency cfg.scope k cfg.N).2) false).trace,
            (runLoop cfg rem (i + 1) (k + (measure_frequency cfg.scope k cfg.N).2) false).terminal,
            (runLoop cfg rem (i + 1) (k + (measure_frequency cfg.scope k cfg.N).2) false).exitCode⟩

/-- A whole run of the `__main__` block, starting at cycle 0 with
`first_time = True`. -/
def run (cfg : Config) : Outcome :=
  runLoop cfg cfg.M 0 0 true

/-- The strings printed to the redirected stdout, in order. -/
def outLines (t : List Event) : List String :=
  t.filterMap (fun e => match e with | .outLine s => some s | _ => none)

/-- The `scope.close()` call sites reached, in order. -/
def releaseSites (t : List Event) : List Site :=
  t.filterMap (fun e => match e with | .released s => some s | _ => none)

/-- `listStartsWith p l` holds when `p` is an initial segment of `l`. -/
def listStartsWith : List Char → List Char → Bool
  | [], _ => true
  | _ :: _, [] => false
  | p :: ps, c :: cs => p == c && listStartsWith ps cs

/-- Whether a printed line is a structured measurement record. -/
def isRecordStr (s : String) : Bool :=
  listStartsWith "measurements ".data s.data

/-- The structured measurement records among a trace's printed lines. -/
def recordLines (t : List Event) : List String :=
  (outLines t).filter isRecordStr

/-- The error a reply makes `float(scope.query(...))` raise, if any. -/
def replyErr : Reply → Option PyError
  | .good _ => none
  | .malformed => some .parseFloat
  | .transportFail => some .instrument

/-! ### A model of standard float parsing, for the round-trip property -/

/-- Accumulating decimal parser over a digit-character list. -/
def parseDigitsAux : List Char → ℕ → Option ℕ
  | [], acc => some acc
  | c :: cs, acc =>
    match charDigit c with
    | none => none
    | some d => parseDigitsAux cs (acc * 10 + d)

/-- Parse a nonempty all-digit character list as a natural number. -/
def parseNatChars (cs : List Char) : Option ℕ :=
  if cs.isEmpty then none else parseDigitsAux cs 0

/-- Split a character list at the first occurrence of `c`. -/
def splitAtCh (c : Char) : List Char → Option (List Char × List Char)
  | [] => none
  | x :: xs =>
    if x = c then some ([], xs)
    else
      match splitAtCh c xs with
      | some (l, r) => some (x :: l, r)
      | none => none

/-- Standard float parsing of a scientific-notation literal
`<int>.<frac>E<sign><exp>`: the value is
`(int + frac / 10^len(frac)) * 10^±exp`. -/
def parseSci (s : String) : Option ℚ :=
  match splitAtCh 'E' s.data with
  | none => none
  | some (mant, ex) =>
    match splitAtCh '.' mant with
    | none => none
    | some (ip, fp) =>
      match parseNatChars ip, parseNatChars fp with
      | some i, some f =>
        match ex with
        | '+' :: ds => (parseNatChars ds).map fun e => ((i : ℚ) + f / 10 ^ fp.length) * 10 ^ e
        | '-' :: ds => (parseNatChars ds).map fun e => ((i : ℚ) + f / 10 ^ fp.length) / 10 ^ e
        | _ => none
      | _, _ => none

/-! ### Denotation of an error-free cycle -/

/-- Arithmetic mean of the `n` oracle values starting at query index `k`. -/
def avgOf (v : ℕ → ℚ) (k n : ℕ) : ℚ :=
  (((List.range n).map fun j => v (k + j)).sum) / n

/-- The averaged frequency measured in cycle `i` of an error-free run. -/
def cycleAvg (cfg : Config) (v : ℕ → ℚ) (i : ℕ) : ℚ :=
  avgOf v (i * cfg.N) cfg.N

/-- The elapsed milliseconds computed in cycle `i`. -/
def cycleElapsed (cfg : Config) (i : ℕ) : ℚ :=
  (cfg.endT i - cfg.startT i) * 1000

/-- The MJD timestamp taken in cycle `i`. -/
def cycleMjd (cfg : Config) (i : ℕ) : ℚ :=
  get_modified_julian_date (cfg.wall i)

/-- The period string rendered in cycle `i` of an error-free run. -/
def cyclePeriod (cfg : Config) (v : ℕ → ℚ) (i : ℕ) : String :=
  fmtSciE 20 (1 / cycleAvg cfg v i)

/-- The structured record emitted by cycle `i` of an error-free run. -/
def cycleRecord (cfg : Config) (v : ℕ → ℚ) (i : ℕ) : String :=
  recordLine (cyclePeriod cfg v i) (cycleElapsed cfg i) (cycleMjd cfg i)

/-- The whole event block of cycle `i` of an error-free run: the first-cycle
header, the cycle's queries, the first-cycle summary, and its record line. -/
def cleanCycle (cfg : Config) (v : ℕ → ℚ) (i : ℕ) : List Event :=
  headerLines (i == 0) cfg.N ++ queryEvents (i * cfg.N) cfg.N ++
    summaryLines (i == 0) (cycleMjd cfg i) (cycleAvg cfg v i) (cycleElapsed cfg i)
      (cyclePeriod cfg v i) ++ [.outLine (cycleRecord cfg v i)]

/-- Number of cycles that complete: all `M` of them when no interrupt is
delivered during a cycle, and `c` when SIGINT arrives during cycle `c < M`. -/
def completedCount (cfg : Config) : ℕ :=
  match cfg.intr with
  | none => cfg.M
  | some (c, _) => min c cfg.M

/-! ### Concrete runs used as witnesses and counterexamples -/

/-- A run whose single query fails at the transport: the loop raises and the
program exits without ever calling `dso_close`. -/
def cexCfg : Config :=
  ⟨fun _ => Reply.transportFail, 1, 1, fun _ => 0, fun _ => 0, fun _ => 0, none⟩

/-- A small healthy run: one sample per cycle, one cycle, all replies 1 MHz. -/
def okCfg : Config :=
  ⟨fun _ => Reply.good 1000000, 1, 1, fun _ => 0, fun _ => 1, fun _ => 0, none⟩

/-- A healthy two-cycle run with two samples per cycle. -/
def okCfg2 : Config :=
  ⟨fun _ => Reply.good 1000000, 2, 2, fun _ => 0, fun _ => 1, fun _ => 0, none⟩

/-- A run interrupted by SIGINT during its first cycle. -/
def intrCfg : Config :=
  ⟨fun _ => Reply.good 1000000, 1, 1, fun _ => 0, fun _ => 1, fun _ => 0, some (0, 0)⟩

/-- A two-cycle run interrupted by SIGINT during its second cycle. -/
def intrCfg2 : Config :=
  ⟨fun _ => Reply.good 1000000, 1, 2, fun _ => 0, fun _ => 1, fun _ => 0, some (1, 0)⟩

/-- A run whose second cycle hits a malformed reply on its first query. -/
def failCfg : Config :=
  ⟨fun k => if k < 1 then Reply.good 1000000 else Reply.malformed,
    1, 2, fun _ => 0, fun _ => 1, fun _ => 0, none⟩

/-! ### Sampler lemmas -/

lemma sumSamples_good (scope : ℕ → Reply) (v : ℕ → ℚ) :
    ∀ (n k : ℕ), (∀ j, j < n → scope (k + j) = Reply.good (v (k + j))) →
      sumSamples scope k n = (.ok (((List.range n).map fun j => v (k + j)).sum), n) := by
  intro n
  induction n with
  | zero => intro k _; simp [sumSamples]
  | succ m ih =>
    intro k h
    have hk : scope k = Reply.good (v k) := by
      have := h 0 (Nat.succ_pos m); simpa using this
    have hrest : sumSamples scope (k + 1) m =
        (.ok (((List.range m).map fun j => v (k + 1 + j)).sum), m) := by
      apply ih
      intro j hj
      have := h (j + 1) (Nat.succ_lt_succ hj)
      simpa [Nat.add_comm, Nat.add_assoc, Nat.add_left_comm] using this
    have hf : ((fun j => v (k + j)) ∘ Nat.succ) = fun j => v (k + 1 + j) := by
      funext j
      show v (k + Nat.succ j) = v (k + 1 + j)
      congr 1
      omega
    have hsum : ((List.range (m + 1)).map fun j => v (k + j)).sum =
        v k + ((List.range m).map fun j => v (k + 1 + j)).sum := by
      rw [List.range_succ_eq_map, List.map_cons, List.map_map, List.sum_cons,
        Nat.add_zero, hf]
    simp only [sumSamples, queryFloat, hk, hrest, hsum]

lemma measure_frequency_good (scope : ℕ → Reply) (v : ℕ → ℚ) (n k : ℕ)
    (hn : n ≠ 0) (h : ∀ j, j < n → scope (k + j) = Reply.good (v (k + j))) :
    measure_frequency scope k n =
      (.ok ((((List.range n).map fun j => v (k + j)).sum) / n), n) := by
  unfold measure_frequency
  rw [sumSamples_good scope v n k h]
  simp [hn]

lemma sumSamples_fail (scope : ℕ → Reply) :
    ∀ (j k n : ℕ) (e : PyError), j < n →
      (∀ i, i < j → ∃ w, scope (k + i) = Reply.good w) →
      replyErr (scope (k + j)) = some e →
      sumSamples scope k n = (.error e, j + 1) := by
  intro j
  induction j with
  | zero =>
    intro k n e hn _ hbad
    obtain ⟨m, rfl⟩ := Nat.exists_eq_add_of_lt hn
    rw [Nat.add_zero] at hbad
    rcases hr : scope k with w | _ | _ <;> rw [hr] at hbad <;>
      simp only [replyErr, Option.some.injEq, reduceCtorEq] at hbad <;>
      simp [sumSamples, queryFloat, hr, hbad]
  | succ j ih =>
    intro k n e hn hpre hbad
    obtain ⟨m, rfl⟩ := Nat.exists_eq_add_of_lt hn
    obtain ⟨w, hw⟩ := hpre 0 (Nat.succ_pos j)
    rw [Nat.add_zero] at hw
    have htail : sumSamples scope (k + 1) (j + 1 + m) = (.error e, j + 1) := by
      apply ih (k + 1) (j + 1 + m) e (by omega)
      · intro i hi
        obtain ⟨u, hu⟩ := hpre (i + 1) (by omega)
        refine ⟨u, ?_⟩
        rw [show k + 1 + i = k + (i + 1) by omega]
        exact hu
      · rw [show k + 1 + j = k + (j + 1) by omega]
        exact hbad
    show sumSamples scope k (j + 1 + m + 1) = _
    simp [sumSamples, queryFloat, hw, htail]

lemma measure_frequency_fail (scope : ℕ → Reply) (j k n : ℕ) (e : PyError)
    (hn : j < n) (hpre : ∀ i, i < j → ∃ w, scope (k + i) = Reply.good w)
    (hbad : replyErr (scope (k + j)) = some e) :
    measure_frequency scope k n = (.error e, j + 1) := by
  unfold measure_frequency
  rw [sumSamples_fail scope j k n e hn hpre hbad]

/-! ### Round-half-to-even bound -/

lemma abs_rhe_sub_le (q : ℚ) : |(rhe q : ℚ) - q| ≤ 1 / 2 := by
  have h0 : ((⌊q⌋ : ℤ) : ℚ) ≤ q := Int.floor_le q
  have h1 : q < ⌊q⌋ + 1 := Int.lt_floor_add_one q
  unfold rhe
  split_ifs with hlt hgt hev <;>
    push_cast <;> rw [abs_sub_le_iff] <;> constructor <;> linarith

lemma le_rhe_of_le {m : ℤ} {q : ℚ} (h : (m : ℚ) ≤ q) : m ≤ rhe q := by
  have hb := abs_rhe_sub_le q
  rw [abs_sub_le_iff] at hb
  have : (m : ℚ) - 1 < (rhe q : ℚ) := by linarith
  have h2 : m - 1 < rhe q := by exact_mod_cast this
  omega

lemma rhe_le_of_le {m : ℤ} {q : ℚ} (h : q ≤ (m : ℚ)) : rhe q ≤ m := by
  have hb := abs_rhe_sub_le q
  rw [abs_sub_le_iff] at hb
  have : (rhe q : ℚ) < (m : ℚ) + 1 := by linarith
  have h2 : rhe q < m + 1 := by exact_mod_cast this
  omega

/-! ### Decimal digit and parsing lemmas -/

lemma charDigit_digitChar {d : ℕ} (hd : d < 10) : charDigit (digitChar d) = some d := by
  interval_cases d <;> rfl

lemma digitChar_ne_E {d : ℕ} (hd : d < 10) : digitChar d ≠ 'E' := by
  interval_cases d <;> decide

lemma digitChar_ne_dot {d : ℕ} (hd : d < 10) : digitChar d ≠ '.' := by
  interval_cases d <;> decide

lemma natChars_mem {n : ℕ} {c : Char} (hc : c ∈ natChars n) :
    ∃ d, d < 10 ∧ c = digitChar d := by
  unfold natChars at hc
  split_ifs at hc with h
  · refine ⟨0, by norm_num, ?_⟩
    simpa [digitChar] using hc
  · simp only [List.mem_map, List.mem_reverse] at hc
    obtain ⟨d, hd, rfl⟩ := hc
    exact ⟨d, Nat.digits_lt_base (by norm_num) hd, rfl⟩

lemma natChars_ne_nil (n : ℕ) : natChars n ≠ [] := by
  unfold natChars
  split_ifs with h
  · simp
  · simp [Nat.digits_ne_nil_iff_ne_zero, h]

lemma natChars_length {n prec : ℕ} (h1 : 10 ^ prec ≤ n) (h2 : n < 10 ^ (prec + 1)) :
    (natChars n).length = prec + 1 := by
  have hn : n ≠ 0 := by
    have hp : 0 < 10 ^ prec := by positivity
    omega
  unfold natChars
  rw [if_neg hn, List.length_map, List.length_reverse,
    Nat.digits_len 10 n (by norm_num) hn, Nat.log_eq_of_pow_le_of_lt_pow h1 h2]

lemma parseDigitsAux_map (ds : List ℕ) (hds : ∀ d ∈ ds, d < 10) :
    ∀ a, parseDigitsAux (ds.map digitChar) a =
      some (ds.foldl (fun x d => x * 10 + d) a) := by
  induction ds with
  | nil => intro a; rfl
  | cons d ds ih =>
    intro a
    rw [List.map_cons, parseDigitsAux, charDigit_digitChar (hds d (by simp))]
    exact ih (fun x hx => hds x (by simp [hx])) (a * 10 + d)

lemma foldl_digits_reverse (l : List ℕ) :
    ∀ a, l.reverse.foldl (fun x d => x * 10 + d) a =
      a * 10 ^ l.length + Nat.ofDigits 10 l := by
  induction l with
  | nil => intro a; simp
  | cons d l ih =>
    intro a
    rw [List.reverse_cons, List.foldl_append, ih a, List.foldl_cons, List.foldl_nil,
      Nat.ofDigits_cons, List.length_cons]
    ring

lemma parseDigitsAux_natChars (n : ℕ) : parseDigitsAux (natChars n) 0 = some n := by
  unfold natChars
  split_ifs with h
  · subst h; rfl
  · rw [parseDigitsAux_map _
      (fun d hd => Nat.digits_lt_base (by norm_num) (List.mem_reverse.mp hd)),
      foldl_digits_reverse, Nat.ofDigits_digits]
    simp

lemma parseNatChars_natChars (n : ℕ) : parseNatChars (natChars n) = some n := by
  unfold parseNatChars
  rw [if_neg (by simp [List.isEmpty_iff, natChars_ne_nil n]), parseDigitsAux_natChars]

lemma parseDigitsAux_shift (cs : List Char) :
    ∀ a, parseDigitsAux cs a =
      (parseDigitsAux cs 0).map fun v => a * 10 ^ cs.length + v := by
  induction cs with
  | nil => intro a; simp [parseDigitsAux]
  | cons c cs ih =>
    intro a
    cases hc : charDigit c with
    | none => simp [parseDigitsAux, hc]
    | some d =>
      simp only [parseDigitsAux, hc]
      rw [ih (a * 10 + d), ih (0 * 10 + d)]
      cases h0 : parseDigitsAux cs 0 with
      | none => simp
      | some v =>
        simp only [Option.map_some', Option.map_map, Option.some.injEq, List.length_cons,
          Function.comp_apply]
        ring

lemma parseDigitsAux_zeros (cs : List Char) :
    ∀ k, parseDigitsAux (List.replicate k '0' ++ cs) 0 = parseDigitsAux cs 0 := by
  intro k
  induction k with
  | zero => simp
  | succ k ih =>
    rw [List.replicate_succ, List.cons_append, parseDigitsAux,
      show charDigit '0' = some 0 from rfl]
    simpa using ih

lemma parseNatChars_pad (w n : ℕ) :
    parseNatChars (padLeftZeros w (natChars n)) = some n := by
  unfold parseNatChars padLeftZeros
  rw [if_neg (by simp [List.isEmpty_iff, List.append_eq_nil, natChars_ne_nil n]),
    parseDigitsAux_zeros, parseDigitsAux_natChars]

lemma splitAtCh_append (c : Char) (l r : List Char) (hl : c ∉ l) :
    splitAtCh c (l ++ c :: r) = some (l, r) := by
  induction l with
  | nil => simp [splitAtCh]
  | cons x xs ih =>
    have hx : ¬(x = c) := fun h => hl (by simp [h])
    have hxs : c ∉ xs := fun h => hl (by simp [h])
    rw [List.cons_append, splitAtCh, if_neg hx, ih hxs]

/-! ### Round trip through the rendered scientific-notation string -/

lemma parseSci_sciChars {prec n : ℕ} (e : ℤ) (hprec : 0 < prec)
    (h1 : 10 ^ prec ≤ n) (h2 : n < 10 ^ (prec + 1)) :
    parseSci ⟨sciChars n e⟩ = some ((n : ℚ) / 10 ^ prec * (10 : ℚ) ^ e) := by
  have hlen := natChars_length h1 h2
  cases hnc : natChars n with
  | nil => exact absurd hnc (natChars_ne_nil n)
  | cons d0 rest =>
    obtain ⟨dd, hdd, rfl⟩ : ∃ d, d < 10 ∧ d0 = digitChar d :=
      natChars_mem (by rw [hnc]; exact List.mem_cons_self _ _)
    have hlenr : rest.length = prec := by
      rw [hnc, List.length_cons] at hlen
      omega
    have hrestne : rest ≠ [] := by
      intro h
      rw [h] at hlenr
      simp at hlenr
      omega
    have hrest_digit : ∀ c ∈ rest, ∃ d, d < 10 ∧ c = digitChar d := by
      intro c hc
      exact natChars_mem (by rw [hnc]; exact List.mem_cons_of_mem _ hc)
    have hnotE : 'E' ∉ digitChar dd :: '.' :: rest := by
      simp only [List.mem_cons, not_or]
      refine ⟨fun h => digitChar_ne_E hdd h.symm, fun h => absurd h (by decide), fun h => ?_⟩
      obtain ⟨d, hd, hcd⟩ := hrest_digit 'E' h
      exact digitChar_ne_E hd hcd.symm
    have h1s : splitAtCh 'E' (sciChars n e) = some (digitChar dd :: '.' :: rest, expChars e) := by
      unfold sciChars
      rw [hnc]
      exact splitAtCh_append 'E' (digitChar dd :: '.' :: rest) (expChars e) hnotE
    have h2s : splitAtCh '.' (digitChar dd :: '.' :: rest) = some ([digitChar dd], rest) := by
      have hd : '.' ∉ [digitChar dd] := by
        simp only [List.mem_singleton]
        exact fun h => digitChar_ne_dot hdd h.symm
      exact splitAtCh_append '.' [digitChar dd] rest hd
    have h3s : parseNatChars [digitChar dd] = some dd := by
      simp [parseNatChars, parseDigitsAux, charDigit_digitChar hdd]
    have hpd : parseDigitsAux (digitChar dd :: rest) 0 = some n := by
      rw [← hnc]
      exact parseDigitsAux_natChars n
    have hpd2 : parseDigitsAux rest dd = some n := by
      have := hpd
      rw [parseDigitsAux, charDigit_digitChar hdd] at this
      simpa using this
    obtain ⟨f, hf, hval⟩ : ∃ f, parseDigitsAux rest 0 = some f ∧ dd * 10 ^ prec + f = n := by
      have hsh := parseDigitsAux_shift rest dd
      rw [hpd2] at hsh
      cases h0 : parseDigitsAux rest 0 with
      | none =>
        rw [h0] at hsh
        simp at hsh
      | some f =>
        rw [h0] at hsh
        simp only [Option.map_some', Option.some.injEq] at hsh
        refine ⟨f, rfl, ?_⟩
        rw [hlenr] at hsh
        omega
    have h4s : parseNatChars rest = some f := by
      unfold parseNatChars
      rw [if_neg (by simp [List.isEmpty_iff, hrestne]), hf]
    have hmant : ((dd : ℚ) + (f : ℚ) / 10 ^ rest.length) = (n : ℚ) / 10 ^ prec := by
      have hcast : ((n : ℚ)) = (dd : ℚ) * 10 ^ prec + (f : ℚ) := by
        exact_mod_cast hval.symm
      rw [hlenr, hcast]
      field_simp
    rcases le_or_lt 0 e with he | he
    · have hexp : expChars e = '+' :: padLeftZeros 2 (natChars e.natAbs) := by
        unfold expChars
        rw [if_pos he]
      have hzp : ((10 : ℚ)) ^ (e.natAbs) = (10 : ℚ) ^ e := by
        rw [← zpow_natCast (10 : ℚ) e.natAbs, Int.natAbs_of_nonneg he]
      simp only [parseSci, show (⟨sciChars n e⟩ : String).data = sciChars n e from rfl,
        h1s, h2s, h3s, h4s, hexp, parseNatChars_pad, Option.map_some', Option.some.injEq]
      rw [hmant, hzp]
    · have hexp : expChars e = '-' :: padLeftZeros 2 (natChars e.natAbs) := by
        unfold expChars
        rw [if_neg (not_le.mpr he)]
      have hcast : ((e.natAbs : ℕ) : ℤ) = -e := by
        rw [← Int.natAbs_neg]
        exact Int.natAbs_of_nonneg (by omega)
      have hzp : ((10 : ℚ)) ^ (e.natAbs) = ((10 : ℚ) ^ e)⁻¹ := by
        rw [← zpow_natCast (10 : ℚ) e.natAbs, hcast, zpow_neg]
      simp only [parseSci, show (⟨sciChars n e⟩ : String).data = sciChars n e from rfl,
        h1s, h2s, h3s, h4s, hexp, parseNatChars_pad, Option.map_some', Option.some.injEq]
      rw [hmant, div_eq_mul_inv, hzp, inv_inv]

/-! ### Accuracy of the chosen mantissa and exponent -/

lemma sciParts_spec (prec : ℕ) (q : ℚ) (hq : 0 < q) :
    10 ^ prec ≤ (sciParts prec q).1 ∧ (sciParts prec q).1 < 10 ^ (prec + 1) ∧
      |((sciParts prec q).1 : ℚ) / 10 ^ prec * (10 : ℚ) ^ (sciParts prec q).2 - q| ≤
        q / 2 / 10 ^ prec := by
  have hten : (0 : ℚ) < 10 := by norm_num
  have hne : (10 : ℚ) ≠ 0 := by norm_num
  set e := Int.log 10 q with he
  set s := q * (10 : ℚ) ^ ((prec : ℤ) - e) with hs
  have hzp : (0 : ℚ) < (10 : ℚ) ^ ((prec : ℤ) - e) := zpow_pos hten _
  have hlow : (10 : ℚ) ^ e ≤ q := Int.zpow_log_le_self (by norm_num) hq
  have hhigh : q < (10 : ℚ) ^ (e + 1) := Int.lt_zpow_succ_log_self (by norm_num) q
  have hsl : ((10 : ℚ) ^ ((prec : ℕ) : ℤ)) ≤ s := by
    calc (10 : ℚ) ^ ((prec : ℕ) : ℤ) = (10 : ℚ) ^ e * (10 : ℚ) ^ ((prec : ℤ) - e) := by
          rw [← zpow_add₀ hne]
          congr 1
          ring
      _ ≤ s := by
          rw [hs]
          exact mul_le_mul_of_nonneg_right hlow hzp.le
  have hsh : s < (10 : ℚ) ^ (((prec : ℕ) : ℤ) + 1) := by
    calc s < (10 : ℚ) ^ (e + 1) * (10 : ℚ) ^ ((prec : ℤ) - e) := by
          rw [hs]
          exact mul_lt_mul_of_pos_right hhigh hzp
      _ = (10 : ℚ) ^ (((prec : ℕ) : ℤ) + 1) := by
          rw [← zpow_add₀ hne]
          congr 1
          ring
  have hcastl : (((10 : ℤ) ^ prec : ℤ) : ℚ) = (10 : ℚ) ^ ((prec : ℕ) : ℤ) := by
    rw [zpow_natCast]
    push_cast
    rfl
  have hcasth : (((10 : ℤ) ^ (prec + 1) : ℤ) : ℚ) = (10 : ℚ) ^ (((prec : ℕ) : ℤ) + 1) := by
    rw [show ((prec : ℕ) : ℤ) + 1 = (((prec + 1 : ℕ)) : ℤ) by push_cast; ring, zpow_natCast]
    push_cast
    rfl
  have hN1 : (10 : ℤ) ^ prec ≤ rhe s := le_rhe_of_le (by rw [hcastl]; exact hsl)
  have hN2 : rhe s ≤ (10 : ℤ) ^ (prec + 1) := rhe_le_of_le (by rw [hcasth]; exact hsh.le)
  have habs := abs_rhe_sub_le s
  have hq_eq : q = s * (10 : ℚ) ^ (e - (prec : ℤ)) := by
    rw [hs, mul_assoc, ← zpow_add₀ hne,
      show ((prec : ℤ) - e) + (e - (prec : ℤ)) = 0 by ring, zpow_zero, mul_one]
  have hdivmul : ∀ (x : ℚ) (E : ℤ), x / 10 ^ prec * (10 : ℚ) ^ E =
      x * (10 : ℚ) ^ (E - (prec : ℤ)) := by
    intro x E
    rw [div_eq_mul_inv, mul_assoc]
    congr 1
    rw [← zpow_natCast (10 : ℚ) prec, ← zpow_neg, ← zpow_add₀ hne]
    congr 1
    ring
  have hezp : (0 : ℚ) < (10 : ℚ) ^ (e - (prec : ℤ)) := zpow_pos hten _
  have hkey : ∀ N : ℤ, |(N : ℚ) * (10 : ℚ) ^ (e - (prec : ℤ)) - q| =
      |(N : ℚ) - s| * (10 : ℚ) ^ (e - (prec : ℤ)) := by
    intro N
    rw [hq_eq]
    rw [← sub_mul, abs_mul, abs_of_pos hezp]
  have hfinal : 1 / 2 * (10 : ℚ) ^ (e - (prec : ℤ)) ≤ q / 2 / 10 ^ prec := by
    rw [div_div, le_div_iff₀ (by positivity)]
    calc 1 / 2 * (10 : ℚ) ^ (e - (prec : ℤ)) * (2 * 10 ^ prec) =
        (10 : ℚ) ^ (e - (prec : ℤ)) * (10 : ℚ) ^ ((prec : ℕ) : ℤ) := by
          rw [zpow_natCast]
          ring
      _ = (10 : ℚ) ^ e := by
          rw [← zpow_add₀ hne]
          congr 1
          ring
      _ ≤ q := hlow
  by_cases hcase : rhe s = 10 ^ (prec + 1)
  · have hsp : sciParts prec q = (10 ^ prec, e + 1) := by
      show (if rhe (q * (10 : ℚ) ^ ((prec : ℤ) - e)) = 10 ^ (prec + 1)
          then ((10 : ℕ) ^ prec, e + 1)
          else ((rhe (q * (10 : ℚ) ^ ((prec : ℤ) - e))).toNat, e)) = (10 ^ prec, e + 1)
      rw [← hs, if_pos hcase]
    rw [hsp]
    refine ⟨le_refl _, Nat.pow_lt_pow_right (by norm_num) (Nat.lt_succ_self _), ?_⟩
    have hv : ((10 ^ prec : ℕ) : ℚ) / 10 ^ prec * (10 : ℚ) ^ (e + 1) =
        ((rhe s : ℤ) : ℚ) * (10 : ℚ) ^ (e - (prec : ℤ)) := by
      rw [hdivmul, hcase]
      push_cast
      rw [← zpow_natCast (10 : ℚ) prec, ← zpow_natCast (10 : ℚ) (prec + 1),
        ← zpow_add₀ hne, ← zpow_add₀ hne]
      congr 1
      push_cast
      ring
    rw [hv, hkey]
    calc |((rhe s : ℤ) : ℚ) - s| * (10 : ℚ) ^ (e - (prec : ℤ)) ≤
        1 / 2 * (10 : ℚ) ^ (e - (prec : ℤ)) :=
          mul_le_mul_of_nonneg_right habs hezp.le
      _ ≤ q / 2 / 10 ^ prec := hfinal
  · have hsp : sciParts prec q = ((rhe s).toNat, e) := by
      show (if rhe (q * (10 : ℚ) ^ ((prec : ℤ) - e)) = 10 ^ (prec + 1)
          then ((10 : ℕ) ^ prec, e + 1)
          else ((rhe (q * (10 : ℚ) ^ ((prec : ℤ) - e))).toNat, e)) = ((rhe s).toNat, e)
      rw [← hs, if_neg hcase]
    have hnn : 0 ≤ rhe s := le_trans (by positivity) hN1
    have htn : (((rhe s).toNat : ℕ) : ℚ) = ((rhe s : ℤ) : ℚ) := by
      exact_mod_cast Int.toNat_of_nonneg hnn
    rw [hsp]
    refine ⟨?_, ?_, ?_⟩
    · have h10 : ((10 : ℕ) ^ prec : ℤ) = (10 : ℤ) ^ prec := by push_cast; rfl
      omega
    · have h10 : ((10 : ℕ) ^ (prec + 1) : ℤ) = (10 : ℤ) ^ (prec + 1) := by push_cast; rfl
      omega
    · rw [hdivmul, htn, hkey]
      calc |((rhe s : ℤ) : ℚ) - s| * (10 : ℚ) ^ (e - (prec : ℤ)) ≤
          1 / 2 * (10 : ℚ) ^ (e - (prec : ℤ)) :=
            mul_le_mul_of_nonneg_right habs hezp.le
        _ ≤ q / 2 / 10 ^ prec := hfinal

/-! ### MJD lemmas -/

lemma get_modified_julian_date_eq (t : ℕ) :
    get_modified_julian_date t = (t : ℚ) / usPerDay := by
  have keyNat : t / 86400000000 * 86400000000 + t % 86400000000 / 1000000 * 1000000 +
      t % 86400000000 % 1000000 = t := by omega
  have key : ((t / 86400000000 : ℕ) : ℚ) * 86400000000 +
      ((t % 86400000000 / 1000000 : ℕ) : ℚ) * 1000000 +
      ((t % 86400000000 % 1000000 : ℕ) : ℚ) = (t : ℚ) := by
    exact_mod_cast keyNat
  unfold get_modified_julian_date usPerDay
  push_cast
  push_cast at key
  field_simp
  linarith [key]

lemma micros_y2k : microsSinceEpoch 2000 1 1 0 0 0 0 = 4453401600000000 := by
  decide

lemma mjd_y2k : get_modified_julian_date (microsSinceEpoch 2000 1 1 0 0 0 0) = 51544 := by
  rw [get_modified_julian_date_eq, micros_y2k]
  norm_num [usPerDay]

/-! ### Classifying printed lines -/

lemma dataAppend (a b : String) : (a ++ b).data = a.data ++ b.data := by
  cases a
  cases b
  rfl

lemma listStartsWith_self_append (p s : List Char) : listStartsWith p (p ++ s) = true := by
  induction p with
  | nil => rfl
  | cons c cs ih => simp [listStartsWith, ih]

lemma isRecordStr_of_data (s : String) (r : List Char)
    (h : s.data = "measurements ".data ++ r) : isRecordStr s = true := by
  unfold isRecordStr
  rw [h]
  exact listStartsWith_self_append _ _

lemma isRecordStr_false_of_head (s : String) (c : Char) (r : List Char)
    (h : s.data = c :: r) (hc : c ≠ 'm') : isRecordStr s = false := by
  unfold isRecordStr
  rw [h, show ("measurements ").data = 'm' :: "easurements ".data from rfl]
  have hb : ('m' == c) = false := by
    simp only [beq_eq_false_iff_ne, ne_eq]
    exact fun hmc => hc hmc.symm
  simp [listStartsWith, hb]

lemma recordLine_isRecord (p : String) (e m : ℚ) :
    isRecordStr (recordLine p e m) = true := by
  apply isRecordStr_of_data _ ("counter=".data ++ p.data ++ ",gate=".data ++
    (fmtFixed 2 e).data ++ " ".data ++ (fmtFixed 5 m).data)
  unfold recordLine
  simp only [dataAppend, List.append_assoc]
  rfl

lemma header_not_record (x : String) :
    isRecordStr ("Number of samples: " ++ x) = false := by
  apply isRecordStr_false_of_head _ 'N' ("umber of samples: ".data ++ x.data)
  · rw [dataAppend]
    rfl
  · decide

lemma summary1_not_record (a b c : String) :
    isRecordStr ("[MJD: " ++ a ++ "] Averaged frequency: " ++ b ++ " MHz, period: " ++ c) =
      false := by
  apply isRecordStr_false_of_head _ '[' ("MJD: ".data ++ a.data ++
    "] Averaged frequency: ".data ++ b.data ++ " MHz, period: ".data ++ c.data)
  · simp only [dataAppend, List.append_assoc]
    rfl
  · decide

lemma summary2_not_record (a : String) :
    isRecordStr ("Elapsed time: " ++ a ++ " ms\n") = false := by
  apply isRecordStr_false_of_head _ 'E' ("lapsed time: ".data ++ a.data ++ " ms\n".data)
  · simp only [dataAppend, List.append_assoc]
    rfl
  · decide

lemma closing_not_record : isRecordStr closingMsg = false := by
  decide

lemma ctrlc_not_record : isRecordStr ctrlcMsg = false := by
  decide

/-! ### Trace bookkeeping -/

lemma outLines_append (a b : List Event) :
    outLines (a ++ b) = outLines a ++ outLines b :=
  List.filterMap_append a b _

lemma releaseSites_append (a b : List Event) :
    releaseSites (a ++ b) = releaseSites a ++ releaseSites b :=
  List.filterMap_append a b _

lemma recordLines_append (a b : List Event) :
    recordLines (a ++ b) = recordLines a ++ recordLines b := by
  unfold recordLines
  rw [outLines_append, List.filter_append]

lemma outLines_queryEvents (k c : ℕ) : outLines (queryEvents k c) = [] := by
  unfold outLines queryEvents
  rw [List.filterMap_map]
  exact List.filterMap_eq_nil_iff.mpr (fun a _ => rfl)

lemma releaseSites_queryEvents (k c : ℕ) : releaseSites (queryEvents k c) = [] := by
  unfold releaseSites queryEvents
  rw [List.filterMap_map]
  exact List.filterMap_eq_nil_iff.mpr (fun a _ => rfl)

lemma releaseSites_headerLines (f : Bool) (n : ℕ) :
    releaseSites (headerLines f n) = [] := by
  cases f <;> rfl

lemma releaseSites_summaryLines (f : Bool) (mjd avg elapsed : ℚ) (p : String) :
    releaseSites (summaryLines f mjd avg elapsed p) = [] := by
  cases f <;> rfl

lemma releaseSites_outLine (s : String) : releaseSites [Event.outLine s] = [] :=
  rfl

lemma releaseSites_interruptTail : releaseSites interruptTail = [Site.handler] :=
  rfl

lemma recordLines_queryEvents (k c : ℕ) : recordLines (queryEvents k c) = [] := by
  unfold recordLines
  rw [outLines_queryEvents]
  rfl

lemma recordLines_headerLines (f : Bool) (n : ℕ) :
    recordLines (headerLines f n) = [] := by
  cases f
  · rfl
  · unfold headerLines recordLines outLines
    simp [List.filter_cons, header_not_record]

lemma recordLines_summaryLines (f : Bool) (mjd avg elapsed : ℚ) (p : String) :
    recordLines (summaryLines f mjd avg elapsed p) = [] := by
  cases f
  · rfl
  · unfold summaryLines recordLines outLines
    simp [List.filter_cons, summary1_not_record, summary2_not_record]

lemma recordLines_outRecord (p : String) (e m : ℚ) :
    recordLines [Event.outLine (recordLine p e m)] = [recordLine p e m] := by
  unfold recordLines outLines
  simp [List.filter_cons, recordLine_isRecord]

lemma recordLines_interruptTail : recordLines interruptTail = [] := by
  unfold recordLines outLines interruptTail
  simp [List.filter_cons, closing_not_record, ctrlc_not_record]

lemma recordLines_cleanCycle (cfg : Config) (v : ℕ → ℚ) (i : ℕ) :
    recordLines (cleanCycle cfg v i) = [cycleRecord cfg v i] := by
  unfold cleanCycle
  rw [recordLines_append, recordLines_append, recordLines_append,
    recordLines_headerLines, recordLines_queryEvents, recordLines_summaryLines]
  unfold cycleRecord
  rw [recordLines_outRecord]
  simp

lemma releaseSites_cleanCycle (cfg : Config) (v : ℕ → ℚ) (i : ℕ) :
    releaseSites (cleanCycle cfg v i) = [] := by
  unfold cleanCycle
  rw [releaseSites_append, releaseSites_append, releaseSites_append,
    releaseSites_headerLines, releaseSites_queryEvents, releaseSites_summaryLines]
  unfold cycleRecord
  rw [releaseSites_outLine]
  simp

/-! ### The loop on an error-free prefix -/

lemma avgOf_pos (v : ℕ → ℚ) (k n : ℕ) (hn : 1 ≤ n)
    (hp : ∀ j, j < n → 0 < v (k + j)) : 0 < avgOf v k n := by
  unfold avgOf
  apply div_pos
  · apply List.sum_pos
    · intro x hx
      simp only [List.mem_map, List.mem_range] at hx
      obtain ⟨j, hj, rfl⟩ := hx
      exact hp j hj
    · intro h
      rw [List.map_eq_nil_iff, List.range_eq_nil] at h
      omega
  · exact_mod_cast Nat.lt_of_lt_of_le Nat.zero_lt_one hn

lemma period_ok {q : ℚ} (h : 0 < q) :
    frequency_to_period_scientific q = .ok (fmtSciE 20 (1 / q)) := by
  unfold frequency_to_period_scientific
  rw [if_neg (not_le.mpr h)]

lemma flatten_range_succ {α : Type} (f : ℕ → List α) (rem i : ℕ) :
    ((List.range (rem + 1)).map fun t => f (i + t)).flatten =
      f i ++ ((List.range rem).map fun t => f (i + 1 + t)).flatten := by
  have hcomp : ((fun t => f (i + t)) ∘ Nat.succ) = fun t => f (i + 1 + t) := by
    funext t
    show f (i + Nat.succ t) = f (i + 1 + t)
    congr 1
    omega
  rw [List.range_succ_eq_map, List.map_cons, List.map_map, hcomp, List.flatten_cons,
    Nat.add_zero]

lemma runLoop_clean (cfg : Config) (v : ℕ → ℚ)
    (hv : ∀ j, cfg.scope j = Reply.good (v j)) (hpos : ∀ j, 0 < v j)
    (hN : 1 ≤ cfg.N) :
    ∀ rem i first, first = (i == 0) →
      (∀ t, t < rem → interruptsAt cfg (i + t) = none) →
      runLoop cfg rem i (i * cfg.N) first =
        ⟨((List.range rem).map fun t => cleanCycle cfg v (i + t)).flatten ++
            [.outLine closingMsg, .released .loopEnd], .completed, 0⟩ := by
  intro rem
  induction rem with
  | zero =>
    intro i first _ _
    simp [runLoop]
  | succ rem ih =>
    intro i first hfirst hno
    have hintr : interruptsAt cfg i = none := by
      have := hno 0 (Nat.succ_pos rem)
      simpa using this
    have hmf : measure_frequency cfg.scope (i * cfg.N) cfg.N =
        (.ok (cycleAvg cfg v i), cfg.N) := by
      rw [measure_frequency_good cfg.scope v cfg.N (i * cfg.N) (by omega)
        (fun j _ => hv (i * cfg.N + j))]
      rfl
    have havg : 0 < cycleAvg cfg v i :=
      avgOf_pos v (i * cfg.N) cfg.N hN (fun j _ => hpos (i * cfg.N + j))
    have hper := period_ok havg
    have harith : i * cfg.N + cfg.N = (i + 1) * cfg.N := by ring
    have hrec := ih (i + 1) false (by simp)
      (fun t ht => by
        have := hno (t + 1) (by omega)
        rw [show i + (t + 1) = i + 1 + t by omega] at this
        exact this)
    show runLoop cfg (rem + 1) i (i * cfg.N) first = _
    simp only [runLoop, hintr, hmf, hper]
    rw [harith, hrec]
    simp only [flatten_range_succ (cleanCycle cfg v) rem i, ← List.append_assoc]
    congr 1
    rw [List.append_assoc, List.append_assoc, List.append_assoc]
    unfold cleanCycle
    rw [hfirst]
    unfold cycleMjd cycleElapsed cyclePeriod cycleRecord cycleMjd cycleElapsed
    simp [cyclePeriod, one_div, List.append_assoc]

lemma runLoop_intr (cfg : Config) (v : ℕ → ℚ)
    (hv : ∀ j, cfg.scope j = Reply.good (v j)) (hpos : ∀ j, 0 < v j)
    (hN : 1 ≤ cfg.N) (c q : ℕ) (hcq : cfg.intr = some (c, q)) :
    ∀ rem i first, first = (i == 0) → i ≤ c → c < i + rem →
      runLoop cfg rem i (i * cfg.N) first =
        ⟨((List.range (c - i)).map fun t => cleanCycle cfg v (i + t)).flatten ++
            headerLines (c == 0) cfg.N ++ queryEvents (c * cfg.N) (min q cfg.N) ++
            interruptTail, .interrupted, 0⟩ := by
  intro rem
  induction rem with
  | zero =>
    intro i first _ h1 h2
    omega
  | succ rem ih =>
    intro i first hfirst hic hlt
    by_cases hci : c = i
    · subst hci
      have hintr : interruptsAt cfg c = some q := by
        unfold interruptsAt
        rw [hcq]
        simp
      have hmf : measure_frequency cfg.scope (c * cfg.N) cfg.N =
          (.ok (cycleAvg cfg v c), cfg.N) := by
        rw [measure_frequency_good cfg.scope v cfg.N (c * cfg.N) (by omega)
          (fun j _ => hv (c * cfg.N + j))]
        rfl
      show runLoop cfg (rem + 1) c (c * cfg.N) first = _
      simp only [runLoop, hintr, hmf]
      rw [hfirst]
      simp [Nat.sub_self]
    · have hil : i < c := by omega
      have hintr : interruptsAt cfg i = none := by
        unfold interruptsAt
        rw [hcq]
        simp [hci]
      have hmf : measure_frequency cfg.scope (i * cfg.N) cfg.N =
          (.ok (cycleAvg cfg v i), cfg.N) := by
        rw [measure_frequency_good cfg.scope v cfg.N (i * cfg.N) (by omega)
          (fun j _ => hv (i * cfg.N + j))]
        rfl
      have havg : 0 < cycleAvg cfg v i :=
        avgOf_pos v (i * cfg.N) cfg.N hN (fun j _ => hpos (i * cfg.N + j))
      have hper := period_ok havg
      have harith : i * cfg.N + cfg.N = (i + 1) * cfg.N := by ring
      have hrec := ih (i + 1) false (by simp) (by omega) (by omega)
      show runLoop cfg (rem + 1) i (i * cfg.N) first = _
      simp only [runLoop, hintr, hmf, hper]
      rw [harith, hrec]
      have hsub : c - i = (c - (i + 1)) + 1 := by omega
      rw [hsub, flatten_range_succ]
      simp only [← List.append_assoc]
      congr 2
      rw [List.append_assoc, List.append_assoc, List.append_assoc]
      unfold cleanCycle
      rw [hfirst]
      unfold cycleMjd cycleElapsed cycleRecord
      simp [cyclePeriod, cycleMjd, cycleElapsed, one_div, List.append_assoc]

lemma runLoop_fail (cfg : Config) (v : ℕ → ℚ) (hN : 1 ≤ cfg.N) :
    ∀ t rem i first j e, first = (i == 0) →
      (∀ u, u < rem → interruptsAt cfg (i + u) = none) →
      t < rem → j < cfg.N →
      (∀ jj, jj < (i + t) * cfg.N + j → cfg.scope jj = Reply.good (v jj)) →
      (∀ jj, jj < (i + t) * cfg.N + j → 0 < v jj) →
      replyErr (cfg.scope ((i + t) * cfg.N + j)) = some e →
      runLoop cfg rem i (i * cfg.N) first =
        ⟨((List.range t).map fun u => cleanCycle cfg v (i + u)).flatten ++
            headerLines ((i + t) == 0) cfg.N ++ queryEvents ((i + t) * cfg.N) (j + 1),
          .failed, 1⟩ := by
  intro t
  induction t with
  | zero =>
    intro rem i first j e hfirst hno hlt hj hg hp hbad
    cases rem with
    | zero => omega
    | succ rem =>
      have hintr : interruptsAt cfg i = none := by
        simpa using hno 0 (Nat.succ_pos rem)
      have hmf : measure_frequency cfg.scope (i * cfg.N) cfg.N = (.error e, j + 1) := by
        apply measure_frequency_fail cfg.scope j (i * cfg.N) cfg.N e hj
        · intro i' hi'
          refine ⟨v (i * cfg.N + i'), hg (i * cfg.N + i') ?_⟩
          have : (i + 0) * cfg.N = i * cfg.N := by ring
          omega
        · have : (i + 0) * cfg.N = i * cfg.N := by ring
          rw [this] at hbad
          exact hbad
      show runLoop cfg (rem + 1) i (i * cfg.N) first = _
      simp only [runLoop, hintr, hmf]
      rw [hfirst]
      simp
  | succ t ihT =>
    intro rem i first j e hfirst hno hlt hj hg hp hbad
    cases rem with
    | zero => omega
    | succ rem =>
      have hintr : interruptsAt cfg i = none := by
        simpa using hno 0 (Nat.succ_pos rem)
      have hmulsucc : (i + 1) * cfg.N = i * cfg.N + cfg.N := by ring
      have hmono : (i + 1) * cfg.N ≤ (i + (t + 1)) * cfg.N :=
        Nat.mul_le_mul_right _ (by omega)
      have hg0 : ∀ j', j' < cfg.N → cfg.scope (i * cfg.N + j') =
          Reply.good (v (i * cfg.N + j')) := by
        intro j' hj'
        apply hg
        omega
      have hp0 : ∀ j', j' < cfg.N → 0 < v (i * cfg.N + j') := by
        intro j' hj'
        apply hp
        omega
      have hmf : measure_frequency cfg.scope (i * cfg.N) cfg.N =
          (.ok (cycleAvg cfg v i), cfg.N) := by
        rw [measure_frequency_good cfg.scope v cfg.N (i * cfg.N) (by omega) hg0]
        rfl
      have havg : 0 < cycleAvg cfg v i :=
        avgOf_pos v (i * cfg.N) cfg.N hN hp0
      have hper := period_ok havg
      have harith : i * cfg.N + cfg.N = (i + 1) * cfg.N := by ring
      have hidx : i + 1 + t = i + (t + 1) := by omega
      have hrec := ihT rem (i + 1) false j e (by simp)
        (fun u hu => by
          have := hno (u + 1) (by omega)
          rw [show i + (u + 1) = i + 1 + u by omega] at this
          exact this)
        (by omega) hj
        (by rw [hidx]; exact hg) (by rw [hidx]; exact hp) (by rw [hidx]; exact hbad)
      show runLoop cfg (rem + 1) i (i * cfg.N) first = _
      simp only [runLoop, hintr, hmf, hper]
      rw [harith, hrec]
      rw [flatten_range_succ]
      have hflag : (i + (t + 1) == 0) = false := by simp
      have hflag2 : (i + 1 + t == 0) = false := by simp
      rw [hflag, hflag2, hidx]
      simp only [headerLines, if_neg Bool.false_ne_true, ← List.append_assoc]
      congr 2
      rw [List.append_assoc, List.append_assoc, List.append_assoc]
      unfold cleanCycle
      rw [hfirst]
      unfold cycleMjd cycleElapsed cycleRecord
      simp [cyclePeriod, cycleMjd, cycleElapsed, one_div, List.append_assoc, headerLines]

lemma runLoop_release (cfg : Config) :
    ∀ rem i k first,
      releaseSites (runLoop cfg rem i k first).trace =
        (match (runLoop cfg rem i k first).terminal with
          | .completed => [Site.loopEnd]
          | .interrupted => [Site.handler]
          | .failed => []) := by
  intro rem
  induction rem with
  | zero =>
    intro i k first
    rfl
  | succ rem ih =>
    intro i k first
    cases hI : interruptsAt cfg i with
    | some q =>
      simp only [runLoop, hI]
      rw [releaseSites_append, releaseSites_append, releaseSites_headerLines,
        releaseSites_queryEvents, releaseSites_interruptTail]
      rfl
    | none =>
      cases hr : (measure_frequency cfg.scope k cfg.N).1 with
      | error e =>
        simp only [runLoop, hI, hr]
        rw [releaseSites_append, releaseSites_headerLines, releaseSites_queryEvents]
        rfl
      | ok avg =>
        cases hp : frequency_to_period_scientific avg with
        | error e =>
          simp only [runLoop, hI, hr, hp]
          rw [releaseSites_append, releaseSites_headerLines, releaseSites_queryEvents]
          rfl
        | ok period =>
          simp only [runLoop, hI, hr, hp]
          rw [releaseSites_append, releaseSites_append, releaseSites_append,
            releaseSites_append, releaseSites_headerLines, releaseSites_queryEvents,
            releaseSites_summaryLines, releaseSites_outLine]
          simp only [List.nil_append]
          exact ih (i + 1) (k + (measure_frequency cfg.scope k cfg.N).2) false

lemma replyErr_cases {r : Reply} {e : PyError} (h : replyErr r = some e) :
    e = PyError.instrument ∨ e = PyError.parseFloat := by
  cases r with
  | good v => simp [replyErr] at h
  | malformed =>
    simp only [replyErr, Option.some.injEq] at h
    exact Or.inr h.symm
  | transportFail =>
    simp only [replyErr, Option.some.injEq] at h
    exact Or.inl h.symm

lemma recordLines_flatten (cfg : Config) (v : ℕ → ℚ) (l : List ℕ) :
    recordLines ((l.map (cleanCycle cfg v)).flatten) = l.map (cycleRecord cfg v) := by
  induction l with
  | nil => rfl
  | cons x xs ih =>
    rw [List.map_cons, List.flatten_cons, recordLines_append, recordLines_cleanCycle,
      ih, List.map_cons]
    rfl

lemma releaseSites_flatten (cfg : Config) (v : ℕ → ℚ) (l : List ℕ) :
    releaseSites ((l.map (cleanCycle cfg v)).flatten) = [] := by
  induction l with
  | nil => rfl
  | cons x xs ih =>
    rw [List.map_cons, List.flatten_cons, releaseSites_append, releaseSites_cleanCycle,
      ih]
    rfl

lemma run_eq_runLoop (cfg : Config) :
    run cfg = runLoop cfg cfg.M 0 (0 * cfg.N) true := by
  unfold run
  rw [Nat.zero_mul]

/-! ### The claims -/

/-- Claim C3: `to_period_string` fails with `DomainError` if and only if the
frequency is non-positive — it raises for `f ≤ 0` and returns a string,
without raising, for every `f > 0`. -/
theorem C3_domain_guard (f : ℚ) :
    (f ≤ 0 → frequency_to_period_scientific f = .error PyError.domain) ∧
      (0 < f → ∃ s, frequency_to_period_scientific f = .ok s) := by
  constructor
  · intro h
    unfold frequency_to_period_scientific
    rw [if_pos h]
  · intro h
    exact ⟨_, period_ok h⟩

theorem C3_domain_guard_witness :
    ((-1 : ℚ) ≤ 0 ∧ frequency_to_period_scientific (-1) = .error PyError.domain) ∧
      (0 < (2 : ℚ) ∧ ∃ s, frequency_to_period_scientific 2 = .ok s) :=
  ⟨⟨by norm_num, (C3_domain_guard (-1)).1 (by norm_num)⟩,
    ⟨by norm_num, (C3_domain_guard 2).2 (by norm_num)⟩⟩

/-- Claim C4: for every `f > 0`, `to_period_string` renders `1/f` in
scientific notation with exactly 20 fractional mantissa digits, and standard
float parsing of the returned string yields a value within rounding tolerance
(relative error at most `10⁻¹⁹`) of `1/f`. -/
theorem C4_roundtrip (f : ℚ) (hf : 0 < f) :
    ∃ s u, frequency_to_period_scientific f = .ok s ∧
      parseSci s = some u ∧
      |u - 1 / f| ≤ (1 / f) / 10 ^ 19 ∧
      ∃ d frac ex, s.data = d :: '.' :: (frac ++ 'E' :: ex) ∧ frac.length = 20 := by
  set q : ℚ := 1 / f with hqdef
  have hq : 0 < q := by positivity
  obtain ⟨h1, h2, h3⟩ := sciParts_spec 20 q hq
  have hfmt : fmtSciE 20 q = ⟨sciChars (sciParts 20 q).1 (sciParts 20 q).2⟩ := by
    unfold fmtSciE
    rw [if_neg (not_lt.mpr hq.le), if_neg hq.ne']
    rfl
  refine ⟨fmtSciE 20 q, ((sciParts 20 q).1 : ℚ) / 10 ^ 20 * (10 : ℚ) ^ (sciParts 20 q).2,
    period_ok hf, ?_, ?_, ?_⟩
  · rw [hfmt]
    exact parseSci_sciChars (sciParts 20 q).2 (by norm_num) h1 h2
  · calc |((sciParts 20 q).1 : ℚ) / 10 ^ 20 * (10 : ℚ) ^ (sciParts 20 q).2 - q| ≤
        q / 2 / 10 ^ 20 := h3
      _ ≤ q / 10 ^ 19 := by
          rw [div_div]
          gcongr
          norm_num
  · have hlen := natChars_length h1 h2
    cases hnc : natChars (sciParts 20 q).1 with
    | nil => exact absurd hnc (natChars_ne_nil _)
    | cons d rest =>
      refine ⟨d, rest, expChars (sciParts 20 q).2, ?_, ?_⟩
      · rw [hfmt]
        show sciChars (sciParts 20 q).1 (sciParts 20 q).2 = _
        unfold sciChars
        rw [hnc]
      · rw [hnc, List.length_cons] at hlen
        omega

theorem C4_roundtrip_witness :
    0 < (1000000 : ℚ) ∧
      ∃ s u, frequency_to_period_scientific 1000000 = .ok s ∧
        parseSci s = some u ∧
        |u - 1 / 1000000| ≤ ((1 : ℚ) / 1000000) / 10 ^ 19 ∧
        ∃ d frac ex, s.data = d :: '.' :: (frac ++ 'E' :: ex) ∧ frac.length = 20 :=
  ⟨by norm_num, C4_roundtrip 1000000 (by norm_num)⟩

/-- Claim C5: for `n ≥ 1` and an instrument whose replies all parse, the
sampler issues exactly `n` sequential queries and returns exactly the
arithmetic mean of the `n` parsed replies. -/
theorem C5_average (scope : ℕ → Reply) (v : ℕ → ℚ) (n : ℕ) (hn : 1 ≤ n)
    (hgood : ∀ j, j < n → scope j = Reply.good (v j)) :
    measure_frequency scope 0 n = (.ok ((((List.range n).map v).sum) / n), n) := by
  have h := measure_frequency_good scope v n 0 (by omega)
    (fun j hj => by simpa using hgood j hj)
  simpa using h

theorem C5_average_witness :
    1 ≤ 2 ∧ measure_frequency (fun _ => Reply.good 5) 0 2 = (.ok 5, 2) := by
  refine ⟨by norm_num, ?_⟩
  have h := C5_average (fun _ => Reply.good 5) (fun _ => 5) 2 (by norm_num)
    (fun _ _ => rfl)
  rw [h]
  norm_num [List.range_succ]

/-- Claim C10: the `n ≥ 1` precondition is unchecked — with `n = 0` the sum
over zero queries is `0`, the division `0 / 0` raises `ZeroDivisionError`
(which is neither the instrument nor the domain error), and no query is
issued. -/
theorem C10_zero_samples (scope : ℕ → Reply) (k : ℕ) :
    measure_frequency scope k 0 = (.error PyError.zeroDivision, 0) ∧
      PyError.zeroDivision ≠ PyError.instrument ∧
      PyError.zeroDivision ≠ PyError.parseFloat ∧
      PyError.zeroDivision ≠ PyError.domain :=
  ⟨rfl, by decide, by decide, by decide⟩

/-- Claim C6: `get_modified_julian_date` returns whole days since the MJD
epoch plus `seconds/86400 + microseconds/86400/10⁶`; the combination equals
the elapsed microseconds divided by `86400·10⁶` exactly, so the fraction
resolves the wall clock to the microsecond, and 2000-01-01T00:00:00 UTC maps
to exactly 51544.0. -/
theorem C6_mjd (t : ℕ) :
    get_modified_julian_date t = (t : ℚ) / 86400000000 ∧
      get_modified_julian_date (microsSinceEpoch 2000 1 1 0 0 0 0) = 51544 := by
  constructor
  · rw [get_modified_julian_date_eq]
    norm_num [usPerDay]
  · exact mjd_y2k

/-- Claim C1 counterexample: in a run whose single cycle fails on its first
query, the program reaches the `Failed` terminal state with zero releases of
the instrument handle — the claimed exactly-once release does not happen. -/
theorem C1_counterexample :
    (run cexCfg).terminal = Terminal.failed ∧
      releaseSites (run cexCfg).trace = [] :=
  ⟨rfl, rfl⟩

/-- Claim C1 (amended): the handle is released exactly once in the Completed
and Interrupted terminal states — by the end-of-loop close and by the SIGINT
handler respectively, so exactly one of the two release sites runs — but a
run that terminates in the Failed state (an unrecovered instrument or domain
error) releases the handle zero times, because the loop has no try/finally
protecting `dso_close`. -/
theorem C1_release_discipline (cfg : Config) :
    ((run cfg).terminal = Terminal.completed →
      releaseSites (run cfg).trace = [Site.loopEnd]) ∧
    ((run cfg).terminal = Terminal.interrupted →
      releaseSites (run cfg).trace = [Site.handler]) ∧
    ((run cfg).terminal = Terminal.failed →
      releaseSites (run cfg).trace = []) := by
  have h := runLoop_release cfg cfg.M 0 0 true
  refine ⟨fun hc => ?_, fun hc => ?_, fun hc => ?_⟩ <;>
    · unfold run at hc ⊢
      rw [h, hc]

theorem C1_release_discipline_witness :
    ((run okCfg).terminal = Terminal.completed ∧
      releaseSites (run okCfg).trace = [Site.loopEnd]) ∧
    ((run intrCfg).terminal = Terminal.interrupted ∧
      releaseSites (run intrCfg).trace = [Site.handler]) ∧
    ((run cexCfg).terminal = Terminal.failed ∧
      releaseSites (run cexCfg).trace = []) := by
  have hok : (run okCfg).terminal = Terminal.completed := by
    rw [run_eq_runLoop, runLoop_clean okCfg (fun _ => 1000000) (fun _ => rfl)
      (fun _ => by norm_num) (by decide) okCfg.M 0 true rfl (fun t ht => rfl)]
  have hintr : (run intrCfg).terminal = Terminal.interrupted := by
    rw [run_eq_runLoop, runLoop_intr intrCfg (fun _ => 1000000) (fun _ => rfl)
      (fun _ => by norm_num) (by decide) 0 0 rfl intrCfg.M 0 true rfl (by decide)
      (by decide)]
  exact ⟨⟨hok, (C1_release_discipline okCfg).1 hok⟩,
    ⟨hintr, (C1_release_discipline intrCfg).2.1 hintr⟩,
    ⟨rfl, (C1_release_discipline cexCfg).2.2 rfl⟩⟩

lemma outLines_cleanCycle_zero (cfg : Config) (v : ℕ → ℚ) :
    outLines (cleanCycle cfg v 0) =
      ["Number of samples: " ++ natStr cfg.N,
        "[MJD: " ++ fmtFixed 5 (cycleMjd cfg 0) ++ "] Averaged frequency: " ++
          fmtFixed 6 (cycleAvg cfg v 0 / 1000000) ++ " MHz, period: " ++
          cyclePeriod cfg v 0,
        "Elapsed time: " ++ fmtFixed 2 (cycleElapsed cfg 0) ++ " ms\n",
        cycleRecord cfg v 0] := by
  unfold cleanCycle
  rw [outLines_append, outLines_append, outLines_append, outLines_queryEvents]
  rfl

lemma outLines_cleanCycle_succ (cfg : Config) (v : ℕ → ℚ) (i : ℕ) :
    outLines (cleanCycle cfg v (i + 1)) = [cycleRecord cfg v (i + 1)] := by
  unfold cleanCycle
  rw [show ((i + 1 : ℕ) == 0) = false from by simp]
  rw [outLines_append, outLines_append, outLines_append, outLines_queryEvents]
  rfl

lemma outLines_flatten_succ (cfg : Config) (v : ℕ → ℚ) (l : List ℕ) :
    outLines ((l.map fun t => cleanCycle cfg v (t + 1)).flatten) =
      l.map fun t => cycleRecord cfg v (t + 1) := by
  induction l with
  | nil => rfl
  | cons x xs ih =>
    rw [List.map_cons, List.flatten_cons, outLines_append, outLines_cleanCycle_succ, ih,
      List.map_cons]
    rfl

/-- Claim C7: an error-free, uninterrupted run of `M ≥ 1` configured cycles
emits exactly `M` CycleRecords, in strict cycle-index order, each cycle's
block (its queries followed by its record) fully emitted before the next
cycle's queries begin, and the handle is released exactly once — by the
end-of-loop close, after the `M`-th record. -/
theorem C7_exhaustion (cfg : Config) (v : ℕ → ℚ)
    (hv : ∀ j, cfg.scope j = Reply.good (v j)) (hpos : ∀ j, 0 < v j)
    (hN : 1 ≤ cfg.N) (_hM : 1 ≤ cfg.M) (hintr : cfg.intr = none) :
    (run cfg).trace = ((List.range cfg.M).map (cleanCycle cfg v)).flatten ++
        [.outLine closingMsg, .released .loopEnd] ∧
      recordLines (run cfg).trace = (List.range cfg.M).map (cycleRecord cfg v) ∧
      releaseSites (run cfg).trace = [Site.loopEnd] ∧
      (run cfg).terminal = .completed ∧ (run cfg).exitCode = 0 := by
  have h := runLoop_clean cfg v hv hpos hN cfg.M 0 true rfl
    (fun t _ => by unfold interruptsAt; rw [hintr])
  simp only [Nat.zero_add] at h
  rw [show (fun t => cleanCycle cfg v t) = cleanCycle cfg v from rfl] at h
  have htail : recordLines [Event.outLine closingMsg, Event.released Site.loopEnd] =
      [] := rfl
  refine ⟨?_, ?_, ?_, ?_, ?_⟩
  · rw [run_eq_runLoop, h]
  · rw [run_eq_runLoop, h, recordLines_append, recordLines_flatten, htail,
      List.append_nil]
  · rw [run_eq_runLoop, h, releaseSites_append, releaseSites_flatten]
    rfl
  · rw [run_eq_runLoop, h]
  · rw [run_eq_runLoop, h]

theorem C7_exhaustion_witness :
    (run okCfg2).trace =
        ((List.range 2).map (cleanCycle okCfg2 fun _ => 1000000)).flatten ++
          [.outLine closingMsg, .released .loopEnd] ∧
      recordLines (run okCfg2).trace =
        (List.range 2).map (cycleRecord okCfg2 fun _ => 1000000) ∧
      releaseSites (run okCfg2).trace = [Site.loopEnd] ∧
      (run okCfg2).terminal = .completed ∧ (run okCfg2).exitCode = 0 :=
  C7_exhaustion okCfg2 (fun _ => 1000000) (fun _ => rfl) (fun _ => by norm_num)
    (by decide) (by decide) rfl

/-- Claim C9: the human-readable summary (sample count, averaged frequency in
MHz, period, elapsed time) is emitted on the first cycle and on no other
cycle; every later cycle contributes exactly its structured record line. -/
theorem C9_first_cycle_summary (cfg : Config) (v : ℕ → ℚ)
    (hv : ∀ j, cfg.scope j = Reply.good (v j)) (hpos : ∀ j, 0 < v j)
    (hN : 1 ≤ cfg.N) (hM : 1 ≤ cfg.M) (hintr : cfg.intr = none) :
    outLines (run cfg).trace =
      ["Number of samples: " ++ natStr cfg.N,
        "[MJD: " ++ fmtFixed 5 (cycleMjd cfg 0) ++ "] Averaged frequency: " ++
          fmtFixed 6 (cycleAvg cfg v 0 / 1000000) ++ " MHz, period: " ++
          cyclePeriod cfg v 0,
        "Elapsed time: " ++ fmtFixed 2 (cycleElapsed cfg 0) ++ " ms\n",
        cycleRecord cfg v 0] ++
        ((List.range (cfg.M - 1)).map fun j => cycleRecord cfg v (j + 1)) ++
        [closingMsg] := by
  obtain ⟨m, hm⟩ : ∃ m, cfg.M = m + 1 := ⟨cfg.M - 1, by omega⟩
  have h := runLoop_clean cfg v hv hpos hN cfg.M 0 true rfl
    (fun t _ => by unfold interruptsAt; rw [hintr])
  simp only [Nat.zero_add] at h
  have htail : outLines [Event.outLine closingMsg, Event.released Site.loopEnd] =
      [closingMsg] := rfl
  rw [run_eq_runLoop, h, hm, outLines_append, htail, List.range_succ_eq_map,
    List.map_cons, List.flatten_cons, outLines_append, outLines_cleanCycle_zero,
    List.map_map]
  simp only [Function.comp_def, Nat.succ_eq_add_one]
  rw [outLines_flatten_succ]
  simp [List.append_assoc, Nat.add_sub_cancel]

theorem C9_first_cycle_summary_witness :
    outLines (run okCfg2).trace =
      ["Number of samples: " ++ natStr okCfg2.N,
        "[MJD: " ++ fmtFixed 5 (cycleMjd okCfg2 0) ++ "] Averaged frequency: " ++
          fmtFixed 6 (cycleAvg okCfg2 (fun _ => 1000000) 0 / 1000000) ++
          " MHz, period: " ++ cyclePeriod okCfg2 (fun _ => 1000000) 0,
        "Elapsed time: " ++ fmtFixed 2 (cycleElapsed okCfg2 0) ++ " ms\n",
        cycleRecord okCfg2 (fun _ => 1000000) 0] ++
        ((List.range (2 - 1)).map fun j => cycleRecord okCfg2 (fun _ => 1000000) (j + 1)) ++
        [closingMsg] :=
  C9_first_cycle_summary okCfg2 (fun _ => 1000000) (fun _ => rfl) (fun _ => by norm_num)
    (by decide) (by decide) rfl

/-- Claim C2: every completed cycle emits exactly one structured log line,
byte-for-byte equal to `"measurements counter=" ++ period ++ ",gate=" ++
elapsed-with-2-fractional-digits ++ " " ++ MJD-with-5-fractional-digits`,
with exactly this comma and space placement. -/
theorem C2_record_format (cfg : Config) (v : ℕ → ℚ)
    (hv : ∀ j, cfg.scope j = Reply.good (v j)) (hpos : ∀ j, 0 < v j)
    (hN : 1 ≤ cfg.N) :
    recordLines (run cfg).trace =
      (List.range (completedCount cfg)).map fun i =>
        "measurements counter=" ++ cyclePeriod cfg v i ++ ",gate=" ++
          fmtFixed 2 (cycleElapsed cfg i) ++ " " ++ fmtFixed 5 (cycleMjd cfg i) := by
  have hmap : ∀ l : List ℕ, (l.map fun i =>
      "measurements counter=" ++ cyclePeriod cfg v i ++ ",gate=" ++
        fmtFixed 2 (cycleElapsed cfg i) ++ " " ++ fmtFixed 5 (cycleMjd cfg i)) =
      l.map (cycleRecord cfg v) := fun l => rfl
  rw [hmap]
  cases hI : cfg.intr with
  | none =>
    have h := runLoop_clean cfg v hv hpos hN cfg.M 0 true rfl
      (fun t _ => by unfold interruptsAt; rw [hI])
    simp only [Nat.zero_add] at h
    rw [show (fun t => cleanCycle cfg v t) = cleanCycle cfg v from rfl] at h
    have htail : recordLines [Event.outLine closingMsg, Event.released Site.loopEnd] =
        [] := rfl
    have hcc : completedCount cfg = cfg.M := by
      unfold completedCount
      rw [hI]
    rw [run_eq_runLoop, h, recordLines_append, recordLines_flatten, htail,
      List.append_nil, hcc]
  | some cq =>
    obtain ⟨c, q⟩ := cq
    by_cases hcM : c < cfg.M
    · have h := runLoop_intr cfg v hv hpos hN c q hI cfg.M 0 true rfl (by omega)
        (by omega)
      simp only [Nat.zero_add, Nat.sub_zero] at h
      rw [show (fun t => cleanCycle cfg v t) = cleanCycle cfg v from rfl] at h
      have hcc : completedCount cfg = min c cfg.M := by
        unfold completedCount
        rw [hI]
      rw [run_eq_runLoop, h, recordLines_append, recordLines_append,
        recordLines_append, recordLines_flatten, recordLines_headerLines,
        recordLines_queryEvents, recordLines_interruptTail, hcc,
        min_eq_left hcM.le]
      simp
    · have h := runLoop_clean cfg v hv hpos hN cfg.M 0 true rfl
        (fun t ht => by
          unfold interruptsAt
          rw [hI]
          have hne : ¬(c = t) := by omega
          simp [hne])
      simp only [Nat.zero_add] at h
      rw [show (fun t => cleanCycle cfg v t) = cleanCycle cfg v from rfl] at h
      have htail : recordLines [Event.outLine closingMsg, Event.released Site.loopEnd] =
          [] := rfl
      have hcc : completedCount cfg = min c cfg.M := by
        unfold completedCount
        rw [hI]
      rw [run_eq_runLoop, h, recordLines_append, recordLines_flatten, htail,
        List.append_nil, hcc, min_eq_right (by omega)]

theorem C2_record_format_witness :
    recordLines (run intrCfg2).trace =
      (List.range (completedCount intrCfg2)).map fun i =>
        "measurements counter=" ++ cyclePeriod intrCfg2 (fun _ => 1000000) i ++
          ",gate=" ++ fmtFixed 2 (cycleElapsed intrCfg2 i) ++ " " ++
          fmtFixed 5 (cycleMjd intrCfg2 i) :=
  C2_record_format intrCfg2 (fun _ => 1000000) (fun _ => rfl) (fun _ => by norm_num)
    (by decide)

/-- Claim C8: a failing query inside `measure_frequency` — transport failure
or a reply `float()` rejects — propagates immediately as the corresponding
instrument-layer error: the sampler returns no partial average, performs no
retry (it stops after the failing query), and the cycle in progress emits no
CycleRecord before the run terminates in the failed state. -/
theorem C8_error_propagation :
    (∀ (scope : ℕ → Reply) (j n : ℕ) (e : PyError), j < n →
        (∀ i, i < j → ∃ w, scope i = Reply.good w) →
        replyErr (scope j) = some e →
        measure_frequency scope 0 n = (.error e, j + 1) ∧
          (e = PyError.instrument ∨ e = PyError.parseFloat)) ∧
    (∀ (cfg : Config) (v : ℕ → ℚ) (t j : ℕ) (e : PyError),
        cfg.intr = none → 1 ≤ cfg.N → t < cfg.M → j < cfg.N →
        (∀ jj, jj < t * cfg.N + j → cfg.scope jj = Reply.good (v jj)) →
        (∀ jj, jj < t * cfg.N + j → 0 < v jj) →
        replyErr (cfg.scope (t * cfg.N + j)) = some e →
        (run cfg).terminal = Terminal.failed ∧
          recordLines (run cfg).trace = (List.range t).map (cycleRecord cfg v)) := by
  constructor
  · intro scope j n e hj hpre hbad
    refine ⟨?_, replyErr_cases hbad⟩
    apply measure_frequency_fail scope j 0 n e hj
    · intro i hi
      obtain ⟨w, hw⟩ := hpre i hi
      exact ⟨w, by simpa using hw⟩
    · simpa using hbad
  · intro cfg v t j e hintr hN ht hj hg hp hbad
    have h := runLoop_fail cfg v hN t cfg.M 0 true j e rfl
      (fun u _ => by unfold interruptsAt; rw [hintr]) ht hj
      (by simpa using hg) (by simpa using hp) (by simpa using hbad)
    simp only [Nat.zero_add] at h
    rw [show (fun u => cleanCycle cfg v u) = cleanCycle cfg v from rfl] at h
    constructor
    · rw [run_eq_runLoop, h]
    · rw [run_eq_runLoop, h, recordLines_append, recordLines_append,
        recordLines_flatten, recordLines_headerLines, recordLines_queryEvents]
      simp

theorem C8_error_propagation_witness :
    (1 < 2 ∧ measure_frequency failCfg.scope 0 2 = (.error PyError.parseFloat, 2) ∧
      (PyError.parseFloat = PyError.instrument ∨
        PyError.parseFloat = PyError.parseFloat)) ∧
    ((run failCfg).terminal = Terminal.failed ∧
      recordLines (run failCfg).trace =
        (List.range 1).map (cycleRecord failCfg fun _ => 1000000)) := by
  constructor
  · refine ⟨by norm_num, ?_⟩
    exact C8_error_propagation.1 failCfg.scope 1 2 PyError.parseFloat (by norm_num)
      (fun i hi => ⟨1000000, by
        have : i = 0 := by omega
        subst this
        rfl⟩) rfl
  · exact C8_error_propagation.2 failCfg (fun _ => 1000000) 1 0 PyError.parseFloat
      rfl (by decide) (by decide) (by decide)
      (fun jj hjj => by
        have hjj0 : jj = 0 := by
          have : jj < 1 := by simpa [failCfg] using hjj
          omega
        subst hjj0
        rfl)
      (fun jj _ => by norm_num) rfl

end Si5351
